import Mathlib

/-!
Verification of the smart-HTTP git bridge (`internal/gitrpc/http_service.go`).

Modelling conventions:
- Go strings and byte slices are `List Char` (Go `len` is the element count).
- The external git subprocess is a function parameter (`runGit`): callers of the
  model supply its behaviour, mirroring the fact that the real subprocess is an
  external collaborator.
- The host environment `os.Environ()` is an explicit `hostEnv` parameter; the
  environment variables constructed by this component are modelled separately
  so that claims about "the variables this component adds" are statable.
- gRPC status errors are modelled as a code plus a message.
-/

set_option autoImplicit false

namespace Gitness

/-- gRPC status codes used by this component. -/
inductive Code where
  | internal
  | invalidArgument
  deriving DecidableEq, Repr

/-- Modelled from the spec: the repository-directory suffix constant
(`gitRepoSuffix`), declared outside the provided sources; the spec fixes the
layout `<root>/<uid>.<repoSuffix>` but not the literal suffix. -/
def gitRepoSuffix : List Char := "git".data

/-- Modelled from the spec: the repository-correlation environment variable
name (`EnvRepoUID`), declared outside the provided sources; the spec fixes its
role (repo correlation for hooks), not its literal name. -/
def EnvRepoUID : List Char := "GITNESS_REPO_UID".data

/-- Modelled from the spec: the pusher-correlation environment variable name
(`EnvPusherID`), declared outside the provided sources; the spec fixes its
role (pusher correlation for hooks), not its literal name. -/
def EnvPusherID : List Char := "GITNESS_PUSHER_ID".data

/-- Source constant `receivePack = "receive-pack"`. -/
def receivePack : List Char := "receive-pack".data

/-- The service-marker variable name, inlined as a literal in the source
(`"SSH_ORIGINAL_COMMAND=" + service`). -/
def sshOriginalCommandKey : List Char := "SSH_ORIGINAL_COMMAND".data

/-- The protocol-override variable name, inlined as a literal in the source
(`"GIT_PROTOCOL=" + protocol`). -/
def gitProtocolKey : List Char := "GIT_PROTOCOL".data

/-- Builds a `KEY=VALUE` environment entry, as the Go code does by string
concatenation, e.g. `EnvRepoUID + "=" + repoUID`. -/
def mkEnvVar (key value : List Char) : List Char := key ++ '=' :: value

/-- Character class `[0-9a-zA-Z]` of `safeGitProtocolHeader`. -/
def isAlnumChar (c : Char) : Bool :=
  (('0' ≤ c) && (c ≤ '9')) || (('a' ≤ c) && (c ≤ 'z')) || (('A' ≤ c) && (c ≤ 'Z'))

/-- Matches one `[0-9a-zA-Z]+=[0-9a-zA-Z]+` pair at the front of the input and
returns the rest of the input, or `none` if no such pair is present. Greedy
consumption is exact here because the character class excludes both `=` and
`:`. -/
def matchPair (cs : List Char) : Option (List Char) :=
  let w1 := cs.takeWhile isAlnumChar
  let r1 := cs.dropWhile isAlnumChar
  if w1.isEmpty then none
  else
    match r1 with
    | '=' :: r2 =>
      let w2 := r2.takeWhile isAlnumChar
      let r3 := r2.dropWhile isAlnumChar
      if w2.isEmpty then none else some r3
    | _ => none

/-- Matches `(:[0-9a-zA-Z]+=[0-9a-zA-Z]+)*` against the whole remaining input.
The fuel argument only bounds the recursion; every iteration consumes at least
one character, so fuel equal to the input length is always sufficient
(`matchPairsTail_fuel_irrelevant`). -/
def matchPairsTail : Nat → List Char → Bool
  | _, [] => true
  | 0, _ :: _ => false
  | fuel + 1, c :: rest =>
    if c = ':' then
      match matchPair rest with
      | some r => matchPairsTail fuel r
      | none => false
    else false

/-- Decides the anchored regular expression
`^[0-9a-zA-Z]+=[0-9a-zA-Z]+(:[0-9a-zA-Z]+=[0-9a-zA-Z]+)*$`
(source variable `safeGitProtocolHeader`). -/
def safeGitProtocolHeaderMatch (cs : List Char) : Bool :=
  match matchPair cs with
  | some r => matchPairsTail r.length r
  | none => false

/-- The environment entries built by `serviceRPC` (source lines 135-147),
in order: optionally the two push-correlation variables, always the
`SSH_ORIGINAL_COMMAND` service marker, optionally the validated
`GIT_PROTOCOL` override. The source appends this list to `os.Environ()`. -/
def serviceEnviron (service gitProtocol principalId repoUid : List Char) :
    List (List Char) :=
  let environ :=
    if service = receivePack ∧ principalId ≠ [] then
      [mkEnvVar EnvRepoUID repoUid, mkEnvVar EnvPusherID principalId]
    else []
  let environ := environ ++ [mkEnvVar sshOriginalCommandKey service]
  if gitProtocol ≠ [] ∧ safeGitProtocolHeaderMatch gitProtocol then
    environ ++ [mkEnvVar gitProtocolKey gitProtocol]
  else environ

/-- The environment entries `InfoRefs` (source lines 61-65) adds on top of
`os.Environ()`: `GIT_PROTOCOL` for any non-empty protocol string, with no
allow-list validation and no other entry. -/
def infoRefsExtraEnviron (gitProtocol : List Char) : List (List Char) :=
  if gitProtocol ≠ [] then [mkEnvVar gitProtocolKey gitProtocol] else []

/-- Lowercase hex digit for `n < 16`, as produced by `strconv.FormatInt`. -/
def hexChar (n : Nat) : Char :=
  if n < 10 then Char.ofNat (48 + n) else Char.ofNat (87 + n)

/-- Fuel-bounded lowercase hex rendering, most significant digit first. Fuel
equal to the number being rendered always suffices because the recursion depth
is logarithmic. -/
def hexRepCore : Nat → Nat → List Char
  | 0, n => [hexChar n]
  | fuel + 1, n =>
    if n < 16 then [hexChar n] else hexRepCore fuel (n / 16) ++ [hexChar (n % 16)]

/-- Models `strconv.FormatInt(n, 16)` for natural `n`: the lowercase hex
rendering of `n` with no leading zeros (and `"0"` for zero). Fuel 16 covers
16 hex digits, i.e. every value below `16 ^ 16 > 2 ^ 63`, hence every `int64`
the source can pass; `hexRepCore_fuel_eq` shows the fuel does not matter in
that range. -/
def formatHex (n : Nat) : List Char := hexRepCore 16 n

/-- Source `packetWrite`: renders `len(str)+4` in lowercase hex, left-pads
with zeros when the hex length is not a multiple of 4, and prepends the result
to the line. -/
def packetWrite (str : List Char) : List Char :=
  let s := formatHex (str.length + 4)
  let s := if s.length % 4 ≠ 0 then List.replicate (4 - s.length % 4) '0' ++ s else s
  s ++ str

/-- The header the specification describes: the hex rendering of `n`
zero-left-padded to width 4. Stated from the words of the spec, for
comparison with `packetWrite`. -/
def hex4 (n : Nat) : List Char :=
  List.replicate (4 - (formatHex n).length) '0' ++ formatHex n

/-- Splits a character list at `/` separators (empty fields preserved), the
element iteration underlying Go `path/filepath.Clean`. -/
def splitSlash : List Char → List (List Char)
  | [] => [[]]
  | '/' :: rest => [] :: splitSlash rest
  | c :: rest =>
    match splitSlash rest with
    | g :: gs => (c :: g) :: gs
    | [] => [[c]]

/-- The element loop of Go `filepath.Clean` (unix): drops empty and `.`
elements, resolves `..` against the output so far (popping a previous element
where possible, dropping `..` at the root, keeping it otherwise). -/
def cleanLoop (rooted : Bool) : List (List Char) → List (List Char) → List (List Char)
  | out, [] => out
  | out, e :: rest =>
    if e = [] ∨ e = ['.'] then cleanLoop rooted out rest
    else if e = ['.', '.'] then
      if out ≠ [] ∧ out.getLast? ≠ some ['.', '.'] then cleanLoop rooted out.dropLast rest
      else if rooted then cleanLoop rooted out rest
      else cleanLoop rooted (out ++ [['.', '.']]) rest
    else cleanLoop rooted (out ++ [e]) rest

/-- Go `filepath.Clean` for unix paths. -/
def pathClean (p : List Char) : List Char :=
  if p = [] then ['.']
  else
    let rooted := p.head? = some '/'
    let out := cleanLoop rooted [] (splitSlash p)
    if rooted then '/' :: List.intercalate ['/'] out
    else if out = [] then ['.'] else List.intercalate ['/'] out

/-- Go `filepath.Join(a, b)` for unix paths: joins the non-empty arguments
with `/` and cleans the result. -/
def filepathJoin (a b : List Char) : List Char :=
  if a = [] ∧ b = [] then []
  else if a = [] then pathClean b
  else if b = [] then pathClean a
  else pathClean (a ++ '/' :: b)

/-- Source `getFullPathForRepo`: `filepath.Join(reposRoot, uid + "." + gitRepoSuffix)`. -/
def getFullPathForRepo (reposRoot uid : List Char) : List Char :=
  filepathJoin reposRoot (uid ++ '.' :: gitRepoSuffix)

/-- The first message of a service-pack exchange (`rpc.ServicePackRequest`).
The payload field is proto `bytes`: `none` models a nil Go slice, `some l`
a present slice with contents `l`. -/
structure ServicePackRequest where
  data : Option (List Char)
  repoUid : List Char
  service : List Char
  gitProtocol : List Char
  principalId : List Char

/-- Outcome of a `ServicePack` call: either an invalid-argument status
returned before any subprocess is started, or a subprocess run with the
recorded extra environment, working directory, whether the failure was
logged, and the propagated subprocess error (if any). -/
inductive ServicePackOutcome where
  | invalidArg (msg : List Char)
  | run (environ : List (List Char)) (dir : List Char) (logged : Bool)
      (result : Option (List Char))
  deriving DecidableEq

/-- Source `serviceRPC` (lines 129-166): builds the environment, runs git with
`os.Environ()` (`hostEnv`) plus the built entries, logs every non-nil error
except `signal: killed`, and returns the error unchanged. The returned pair is
(logged, returned error). The stream adapters wired to stdin and stdout carry
no decidable content and are abstracted into `runGit`. -/
def serviceRPC (hostEnv : List (List Char))
    (service gitProtocol principalId repoUid dir : List Char)
    (runGit : List (List Char) → List Char → Option (List Char)) :
    Bool × Option (List Char) :=
  let environ := serviceEnviron service gitProtocol principalId repoUid
  match runGit (hostEnv ++ environ) dir with
  | none => (false, none)
  | some e => if e = "signal: killed".data then (false, some e) else (true, some e)

/-- Source `ServicePack` (lines 99-127): validates the first message (nil
payload, non-empty repository UID), resolves the repository path, and hands
off to `serviceRPC`. The subprocess runs only in the `.run` outcome. -/
def servicePack (hostEnv : List (List Char)) (reposRoot : List Char)
    (req : ServicePackRequest)
    (runGit : List (List Char) → List Char → Option (List Char)) :
    ServicePackOutcome :=
  if req.data ≠ none then
    ServicePackOutcome.invalidArg "PostUploadPack(): non-empty Data".data
  else if req.repoUid = [] then
    ServicePackOutcome.invalidArg "PostUploadPack(): repository UID is missing".data
  else
    let repoPath := getFullPathForRepo reposRoot req.repoUid
    let r := serviceRPC hostEnv req.service req.gitProtocol req.principalId
      req.repoUid repoPath runGit
    ServicePackOutcome.run (serviceEnviron req.service req.gitProtocol
      req.principalId req.repoUid) repoPath r.1 r.2

/-- Source `InfoRefs` (lines 57-97): runs
`git <service> --stateless-rpc --advertise-refs .` with the extended
environment in the resolved repository directory, buffering its stdout. On
subprocess failure it returns an internal-status error before anything is
sent. On success it sends the packet-line service banner, the `0000` flush,
and the buffered stdout, in that order. The result is the list of sent chunks
plus the returned error, if any. Transport send failures are not modelled:
each send is taken to succeed. -/
def infoRefs (hostEnv : List (List Char)) (reposRoot service gitProtocol repoUid : List Char)
    (runGit : List (List Char) → List (List Char) → List Char →
      Except (List Char) (List Char)) :
    List (List Char) × Option (Code × List Char) :=
  let environ := hostEnv ++ infoRefsExtraEnviron gitProtocol
  let repoPath := getFullPathForRepo reposRoot repoUid
  match runGit [service, "--stateless-rpc".data, "--advertise-refs".data, ".".data]
      environ repoPath with
  | Except.error e =>
    ([], some (Code.internal, "InfoRefsUploadPack: cmd: ".data ++ e))
  | Except.ok out =>
    ([packetWrite ("# service=git-".data ++ service ++ ['\n']), "0000".data, out], none)

/-! ## Helper lemmas -/

lemma mkEnvVar_inj {k1 k2 : List Char} (h1 : '=' ∉ k1) (h2 : '=' ∉ k2)
    (v1 v2 : List Char) :
    mkEnvVar k1 v1 = mkEnvVar k2 v2 ↔ k1 = k2 ∧ v1 = v2 := by
  induction k1 generalizing k2 with
  | nil =>
    cases k2 with
    | nil => simp [mkEnvVar]
    | cons b t =>
      have hb : '=' ≠ b := fun h => h2 (h ▸ List.mem_cons_self _ _)
      simp [mkEnvVar, hb]
  | cons a s ih =>
    cases k2 with
    | nil =>
      have ha : a ≠ '=' := fun h => h1 (h ▸ List.mem_cons_self _ _)
      simp [mkEnvVar, ha]
    | cons b t =>
      have h1x : '=' ∉ s := fun h => h1 (List.mem_cons_of_mem _ h)
      have h2x : '=' ∉ t := fun h => h2 (List.mem_cons_of_mem _ h)
      have := @ih t h1x h2x
      simp only [mkEnvVar, List.cons_append, List.cons.injEq] at this ⊢
      rw [this]
      tauto

lemma mkEnvVar_key_ne {k1 k2 : List Char} (h1 : '=' ∉ k1) (h2 : '=' ∉ k2)
    (hk : k1 ≠ k2) (v1 v2 : List Char) : mkEnvVar k1 v1 ≠ mkEnvVar k2 v2 :=
  fun h => hk ((mkEnvVar_inj h1 h2 v1 v2).mp h).1

lemma mkEnvVar_repoUID_eq (a b : List Char) :
    mkEnvVar EnvRepoUID a = mkEnvVar EnvRepoUID b ↔ a = b := by
  rw [mkEnvVar_inj (by decide) (by decide)]
  simp

lemma mkEnvVar_pusherID_eq (a b : List Char) :
    mkEnvVar EnvPusherID a = mkEnvVar EnvPusherID b ↔ a = b := by
  rw [mkEnvVar_inj (by decide) (by decide)]
  simp

lemma mkEnvVar_repoUID_ne_ssh (a b : List Char) :
    mkEnvVar EnvRepoUID a ≠ mkEnvVar sshOriginalCommandKey b :=
  mkEnvVar_key_ne (by decide) (by decide) (by decide) a b

lemma mkEnvVar_repoUID_ne_proto (a b : List Char) :
    mkEnvVar EnvRepoUID a ≠ mkEnvVar gitProtocolKey b :=
  mkEnvVar_key_ne (by decide) (by decide) (by decide) a b

lemma mkEnvVar_pusherID_ne_ssh (a b : List Char) :
    mkEnvVar EnvPusherID a ≠ mkEnvVar sshOriginalCommandKey b :=
  mkEnvVar_key_ne (by decide) (by decide) (by decide) a b

lemma mkEnvVar_pusherID_ne_proto (a b : List Char) :
    mkEnvVar EnvPusherID a ≠ mkEnvVar gitProtocolKey b :=
  mkEnvVar_key_ne (by decide) (by decide) (by decide) a b

lemma mkEnvVar_repoUID_ne_pusherID (a b : List Char) :
    mkEnvVar EnvRepoUID a ≠ mkEnvVar EnvPusherID b :=
  mkEnvVar_key_ne (by decide) (by decide) (by decide) a b

lemma mkEnvVar_pusherID_ne_repoUID (a b : List Char) :
    mkEnvVar EnvPusherID a ≠ mkEnvVar EnvRepoUID b :=
  mkEnvVar_key_ne (by decide) (by decide) (by decide) a b

lemma mkEnvVar_ssh_ne_proto (a b : List Char) :
    mkEnvVar sshOriginalCommandKey a ≠ mkEnvVar gitProtocolKey b :=
  mkEnvVar_key_ne (by decide) (by decide) (by decide) a b

lemma mkEnvVar_ssh_ne_repoUID (a b : List Char) :
    mkEnvVar sshOriginalCommandKey a ≠ mkEnvVar EnvRepoUID b :=
  mkEnvVar_key_ne (by decide) (by decide) (by decide) a b

lemma mkEnvVar_ssh_ne_pusherID (a b : List Char) :
    mkEnvVar sshOriginalCommandKey a ≠ mkEnvVar EnvPusherID b :=
  mkEnvVar_key_ne (by decide) (by decide) (by decide) a b

/-! ## Claims about the constructed environments -/

/-- C4: the subprocess environment entries built for a service-pack exchange
contain the repository-correlation variable with value `v` exactly when the
service is `receive-pack`, the principal is non-empty and `v` is the supplied
repository UID, and the pusher-correlation variable with value `v` exactly
when the service is `receive-pack`, the principal is non-empty and `v` is the
supplied principal identifier; for any other service, or an empty principal,
neither variable occurs with any value. -/
theorem servicePack_correlation_vars
    (service gitProtocol principalId repoUid v : List Char) :
    (mkEnvVar EnvRepoUID v ∈ serviceEnviron service gitProtocol principalId repoUid ↔
      service = receivePack ∧ principalId ≠ [] ∧ v = repoUid) ∧
    (mkEnvVar EnvPusherID v ∈ serviceEnviron service gitProtocol principalId repoUid ↔
      service = receivePack ∧ principalId ≠ [] ∧ v = principalId) := by
  unfold serviceEnviron
  split_ifs with hc hp hp <;>
    simp [List.mem_append, mkEnvVar_repoUID_eq, mkEnvVar_pusherID_eq,
      mkEnvVar_repoUID_ne_ssh, mkEnvVar_repoUID_ne_proto, mkEnvVar_pusherID_ne_ssh,
      mkEnvVar_pusherID_ne_proto, mkEnvVar_repoUID_ne_pusherID,
      mkEnvVar_pusherID_ne_repoUID] <;>
    tauto

/-- C5 counterexample: a ref-advertisement call with protocol string
`version=2` builds environment additions that contain no service-marker
variable at all, refuting the claim that every invocation of either public
operation carries one. -/
theorem infoRefs_no_service_marker :
    ¬ ∃ v, mkEnvVar sshOriginalCommandKey v ∈ infoRefsExtraEnviron "version=2".data := by
  rintro ⟨v, hv⟩
  have he : infoRefsExtraEnviron "version=2".data =
      [mkEnvVar gitProtocolKey "version=2".data] := by
    unfold infoRefsExtraEnviron
    rw [if_pos (by decide)]
  rw [he] at hv
  simp only [List.mem_singleton] at hv
  exact mkEnvVar_ssh_ne_proto _ _ hv

/-- C5 (amended): the service-pack exchange always adds the service-marker
variable `SSH_ORIGINAL_COMMAND` with the originating service name to the
subprocess environment; the ref-advertisement operation adds no service-marker
variable. -/
theorem servicePack_service_marker :
    (∀ service gitProtocol principalId repoUid,
      mkEnvVar sshOriginalCommandKey service ∈
        serviceEnviron service gitProtocol principalId repoUid) ∧
    (∀ gitProtocol v,
      mkEnvVar sshOriginalCommandKey v ∉ infoRefsExtraEnviron gitProtocol) := by
  constructor
  · intro service gitProtocol principalId repoUid
    unfold serviceEnviron
    split_ifs <;> simp
  · intro gitProtocol v h
    unfold infoRefsExtraEnviron at h
    split_ifs at h with hg
    · simp only [List.mem_singleton] at h
      exact mkEnvVar_ssh_ne_proto _ _ h
    · simp at h

/-- C1: evaluation at the failing input. The protocol string `a=b;c` does not
match the allow-list pattern, yet the ref-advertisement path puts
`GIT_PROTOCOL=a=b;c` into its environment additions, while the service-pack
path (which applies the allow-list) drops it. The claim that both operations
gate the protocol-override variable on the pattern is right about the intent
(the code compiles `safeGitProtocolHeader` for exactly this purpose and the
sibling path uses it) and wrong about `InfoRefs`. -/
theorem infoRefs_protocol_not_validated :
    safeGitProtocolHeaderMatch "a=b;c".data = false ∧
    mkEnvVar gitProtocolKey "a=b;c".data ∈ infoRefsExtraEnviron "a=b;c".data ∧
    mkEnvVar gitProtocolKey "a=b;c".data ∉
      serviceEnviron "upload-pack".data "a=b;c".data [] [] := by
  decide

/-! ## Claims about the service-pack state machine -/

/-- C3: if the first service-pack message carries payload bytes, or its
repository UID is empty, the call returns an invalid-argument status and no
subprocess is started (the outcome is `invalidArg`, which never runs git, for
every possible subprocess behaviour `runGit`). -/
theorem servicePack_first_message_validation
    (hostEnv : List (List Char)) (reposRoot : List Char) (req : ServicePackRequest)
    (runGit : List (List Char) → List Char → Option (List Char))
    (h : (∃ l, req.data = some l ∧ l ≠ []) ∨ req.repoUid = []) :
    ∃ msg, servicePack hostEnv reposRoot req runGit =
      ServicePackOutcome.invalidArg msg := by
  unfold servicePack
  rcases h with ⟨l, hl, -⟩ | huid
  · rw [if_pos (by simp [hl])]
    exact ⟨_, rfl⟩
  · by_cases hd : req.data ≠ none
    · rw [if_pos hd]
      exact ⟨_, rfl⟩
    · rw [if_neg hd, if_pos huid]
      exact ⟨_, rfl⟩

/-- C3 witness: a concrete first message carrying the payload byte `p` is
rejected with an invalid-argument status. -/
theorem servicePack_first_message_validation_witness :
    ∃ msg, servicePack [] "/repos".data
      ⟨some ['p'], "r1".data, receivePack, [], []⟩ (fun _ _ => none) =
      ServicePackOutcome.invalidArg msg :=
  servicePack_first_message_validation [] "/repos".data
    ⟨some ['p'], "r1".data, receivePack, [], []⟩ (fun _ _ => none)
    (Or.inl ⟨['p'], rfl, by decide⟩)

/-- C9: a first service-pack message whose payload field is present but empty
(a non-nil zero-length byte slice) is rejected with the non-empty-data
invalid-argument status and no subprocess is started: the check fires on
presence of the field, not on its contents. -/
theorem servicePack_rejects_empty_present_payload
    (hostEnv : List (List Char)) (reposRoot : List Char) (req : ServicePackRequest)
    (runGit : List (List Char) → List Char → Option (List Char))
    (h : req.data = some []) :
    servicePack hostEnv reposRoot req runGit =
      ServicePackOutcome.invalidArg "PostUploadPack(): non-empty Data".data := by
  unfold servicePack
  rw [if_pos (by simp [h])]

/-- C9 witness: the concrete first message with a present, empty payload field
is rejected. -/
theorem servicePack_rejects_empty_present_payload_witness :
    servicePack [] "/repos".data
      ⟨some [], "r1".data, receivePack, [], []⟩ (fun _ _ => none) =
      ServicePackOutcome.invalidArg "PostUploadPack(): non-empty Data".data :=
  servicePack_rejects_empty_present_payload [] "/repos".data
    ⟨some [], "r1".data, receivePack, [], []⟩ (fun _ _ => none) rfl

/-- C8: whenever the git subprocess of a service-pack exchange returns an
error, `serviceRPC` propagates exactly that error to the caller, and logs it
if and only if it is not the cancellation-induced `signal: killed`
termination; no error outcome is swallowed. -/
theorem serviceRPC_error_logging
    (hostEnv : List (List Char))
    (service gitProtocol principalId repoUid dir : List Char)
    (runGit : List (List Char) → List Char → Option (List Char))
    (e : List Char)
    (h : runGit (hostEnv ++ serviceEnviron service gitProtocol principalId repoUid)
      dir = some e) :
    (serviceRPC hostEnv service gitProtocol principalId repoUid dir runGit).2 =
      some e ∧
    ((serviceRPC hostEnv service gitProtocol principalId repoUid dir runGit).1 =
      false ↔ e = "signal: killed".data) := by
  simp only [serviceRPC]
  rw [h]
  by_cases he : e = "signal: killed".data <;> simp [he]

/-- C8 witness: a subprocess killed by cancellation (`signal: killed`) is not
logged but its error is still returned. -/
theorem serviceRPC_error_logging_witness :
    (serviceRPC [] receivePack [] [] "r1".data "/repos/r1.git".data
      (fun _ _ => some "signal: killed".data)).2 = some "signal: killed".data ∧
    ((serviceRPC [] receivePack [] [] "r1".data "/repos/r1.git".data
      (fun _ _ => some "signal: killed".data)).1 = false ↔
      "signal: killed".data = "signal: killed".data) :=
  serviceRPC_error_logging [] receivePack [] [] "r1".data "/repos/r1.git".data
    (fun _ _ => some "signal: killed".data) "signal: killed".data rfl

/-! ## Claims about ref advertisement -/

/-- C6: a ref-advertisement call whose git subprocess succeeds returns no
error, and the concatenation of all chunks sent to the caller is exactly the
packet-line encoding of the service banner, then the flush marker `0000`, then
the raw subprocess stdout, in that order. The subprocess hypothesis pins the
invocation: argument vector `<service> --stateless-rpc --advertise-refs .`,
the extended environment, and the resolved repository path. -/
theorem infoRefs_success_output
    (hostEnv : List (List Char))
    (reposRoot service gitProtocol repoUid out : List Char)
    (runGit : List (List Char) → List (List Char) → List Char →
      Except (List Char) (List Char))
    (h : runGit [service, "--stateless-rpc".data, "--advertise-refs".data, ".".data]
      (hostEnv ++ infoRefsExtraEnviron gitProtocol)
      (getFullPathForRepo reposRoot repoUid) = Except.ok out) :
    (infoRefs hostEnv reposRoot service gitProtocol repoUid runGit).2 = none ∧
    (infoRefs hostEnv reposRoot service gitProtocol repoUid runGit).1.flatten =
      packetWrite ("# service=git-".data ++ service ++ ['\n']) ++
        "0000".data ++ out := by
  simp only [infoRefs]
  rw [h]
  simp

/-- C6 witness: a concrete successful advertisement streams banner, flush and
subprocess output in order. -/
theorem infoRefs_success_output_witness :
    (infoRefs [] "/repos".data "upload-pack".data [] "r1".data
      (fun _ _ _ => Except.ok "REFS".data)).2 = none ∧
    (infoRefs [] "/repos".data "upload-pack".data [] "r1".data
      (fun _ _ _ => Except.ok "REFS".data)).1.flatten =
      packetWrite ("# service=git-".data ++ "upload-pack".data ++ ['\n']) ++
        "0000".data ++ "REFS".data :=
  infoRefs_success_output [] "/repos".data "upload-pack".data [] "r1".data
    "REFS".data (fun _ _ _ => Except.ok "REFS".data) rfl

/-- C7: if the git subprocess of a ref-advertisement call fails to launch or
exits with an error, the call returns an internal-status error carrying the
underlying message and sends no bytes at all to the caller (the sent-chunk
list is empty: the source buffers subprocess stdout and only starts writing
after the subprocess has succeeded). -/
theorem infoRefs_failure_no_output
    (hostEnv : List (List Char))
    (reposRoot service gitProtocol repoUid e : List Char)
    (runGit : List (List Char) → List (List Char) → List Char →
      Except (List Char) (List Char))
    (h : runGit [service, "--stateless-rpc".data, "--advertise-refs".data, ".".data]
      (hostEnv ++ infoRefsExtraEnviron gitProtocol)
      (getFullPathForRepo reposRoot repoUid) = Except.error e) :
    infoRefs hostEnv reposRoot service gitProtocol repoUid runGit =
      ([], some (Code.internal, "InfoRefsUploadPack: cmd: ".data ++ e)) := by
  simp only [infoRefs]
  rw [h]

/-- C7 witness: a concrete failing subprocess yields the internal error with
the underlying message and an empty sent-chunk list. -/
theorem infoRefs_failure_no_output_witness :
    infoRefs [] "/repos".data "upload-pack".data [] "r1".data
      (fun _ _ _ => Except.error "exit status 128".data) =
      ([], some (Code.internal,
        "InfoRefsUploadPack: cmd: ".data ++ "exit status 128".data)) :=
  infoRefs_failure_no_output [] "/repos".data "upload-pack".data [] "r1".data
    "exit status 128".data (fun _ _ _ => Except.error "exit status 128".data) rfl

/-! ## Claims about repository path resolution -/

/-- C10: the per-call repository path lookup is exactly the filesystem join of
the repository root with `uid + "." + suffix` — a total function with no
validation — and consequently a UID containing `..` components resolves to a
path outside the root: for UID `../../etc/secret` under root `/repos` the
resolved path is `/etc/secret.git`, which neither equals the root nor lies
under `/repos/`. -/
theorem getFullPathForRepo_join_escapes_root :
    (∀ reposRoot uid, getFullPathForRepo reposRoot uid =
      filepathJoin reposRoot (uid ++ '.' :: gitRepoSuffix)) ∧
    getFullPathForRepo "/repos".data "../../etc/secret".data =
      "/etc/secret.git".data ∧
    (getFullPathForRepo "/repos".data "../../etc/secret".data).take 7 ≠
      "/repos/".data ∧
    getFullPathForRepo "/repos".data "../../etc/secret".data ≠ "/repos".data :=
  ⟨fun _ _ => rfl, by decide, by decide, by decide⟩

/-! ## The packet-line encoder -/

lemma hexRepCore_length_pos (fuel n : Nat) : 1 ≤ (hexRepCore fuel n).length := by
  induction fuel generalizing n with
  | zero => simp [hexRepCore]
  | succ f ih =>
    simp only [hexRepCore]
    split
    · simp
    · simp only [List.length_append, List.length_singleton]
      omega

lemma hexRepCore_length_le (fuel n k : Nat) (hk : 1 ≤ k) (h : n < 16 ^ k) :
    (hexRepCore fuel n).length ≤ k := by
  induction fuel generalizing n k with
  | zero => simpa [hexRepCore] using hk
  | succ f ih =>
    simp only [hexRepCore]
    split
    · simpa using hk
    · rename_i hn
      have hk2 : 2 ≤ k := by
        by_contra hlt
        push_neg at hlt
        interval_cases k
        exact hn (by simpa using h)
      have h16 : 16 ^ (k - 1) * 16 = 16 ^ k := by
        rw [← pow_succ]
        congr 1
        omega
      have hdiv : n / 16 < 16 ^ (k - 1) :=
        Nat.div_lt_of_lt_mul (by rw [Nat.mul_comm, h16]; exact h)
      have := ih (n / 16) (k - 1) (by omega) hdiv
      simp only [List.length_append, List.length_singleton]
      omega

lemma formatHex_length_pos (n : Nat) : 1 ≤ (formatHex n).length :=
  hexRepCore_length_pos 16 n

lemma formatHex_length_le (n k : Nat) (hk : 1 ≤ k) (h : n < 16 ^ k) :
    (formatHex n).length ≤ k :=
  hexRepCore_length_le 16 n k hk h

lemma hexRepCore_fuel_eq (f g n : Nat) (hf : n < 16 ^ (f + 1))
    (hg : n < 16 ^ (g + 1)) : hexRepCore f n = hexRepCore g n := by
  induction f generalizing g n with
  | zero =>
    have hn : n < 16 := by simpa using hf
    cases g with
    | zero => rfl
    | succ gp => simp [hexRepCore, hn]
  | succ fp ih =>
    by_cases hn : n < 16
    · cases g with
      | zero => simp [hexRepCore, hn]
      | succ gp => simp [hexRepCore, hn]
    · cases g with
      | zero =>
        exact absurd (by simpa using hg) hn
      | succ gp =>
        have hdf : n / 16 < 16 ^ (fp + 1) :=
          Nat.div_lt_of_lt_mul (by
            rw [Nat.mul_comm, ← pow_succ]
            exact hf)
        have hdg : n / 16 < 16 ^ (gp + 1) :=
          Nat.div_lt_of_lt_mul (by
            rw [Nat.mul_comm, ← pow_succ]
            exact hg)
        simp only [hexRepCore, if_neg hn]
        rw [ih gp (n / 16) hdf hdg]

/-- Rendering with fuel 16 agrees with rendering with unbounded fuel on every
value a Go `int64` can hold. -/
lemma formatHex_eq_full_fuel (n : Nat) (h : n < 16 ^ 16) :
    formatHex n = hexRepCore n n :=
  hexRepCore_fuel_eq 16 n n (lt_trans h (by norm_num))
    (lt_of_lt_of_le (Nat.lt_two_pow n)
      (le_trans (Nat.pow_le_pow_left (by norm_num) n)
        (Nat.pow_le_pow_right (by norm_num) (Nat.le_succ n))))

/-- C2 counterexample: for the string of 65532 `a` characters the encoder
output has length 65540, not 65532 + 4, so it cannot consist of a 4-character
header followed by the string: `65532 + 4 = 65536` needs five hex digits and
`packetWrite` pads the header to a multiple of 4 (here 8 characters), not to
width 4. -/
theorem packetWrite_long_header_not_four_chars :
    (packetWrite (List.replicate 65532 'a')).length = 65540 ∧
    65532 + 4 ≠ 65540 := by
  constructor
  · have hf : formatHex (65532 + 4) = ['1', '0', '0', '0', '0'] := by decide
    simp only [packetWrite, List.length_replicate]
    rw [hf]
    simp only [List.length_append, List.length_replicate, List.length_cons,
      List.length_nil]
    norm_num
  · decide

/-- C2 (amended): for every string whose length `L` satisfies `L + 4 < 65536`,
the encoder returns exactly 4 lowercase hex characters representing `L + 4`
zero-left-padded to width 4, followed by the string verbatim; for longer
strings the header is instead padded to the next multiple of 4 of the hex
length. -/
theorem packetWrite_header (str : List Char) (h : str.length + 4 < 65536) :
    packetWrite str = hex4 (str.length + 4) ++ str ∧
    (hex4 (str.length + 4)).length = 4 := by
  have h1 : 1 ≤ (formatHex (str.length + 4)).length := formatHex_length_pos _
  have h4 : (formatHex (str.length + 4)).length ≤ 4 :=
    formatHex_length_le _ 4 (by norm_num) (by simpa using h)
  have hcase : (formatHex (str.length + 4)).length = 1 ∨
      (formatHex (str.length + 4)).length = 2 ∨
      (formatHex (str.length + 4)).length = 3 ∨
      (formatHex (str.length + 4)).length = 4 := by omega
  constructor
  · simp only [packetWrite, hex4]
    rcases hcase with hL | hL | hL | hL <;> rw [hL] <;> norm_num
  · simp only [hex4, List.length_append, List.length_replicate]
    omega

/-- C2 witness: the three-character line `abc` is encoded with the 4-character
header `0007`. -/
theorem packetWrite_header_witness :
    packetWrite "abc".data = hex4 ("abc".data.length + 4) ++ "abc".data ∧
    (hex4 ("abc".data.length + 4)).length = 4 :=
  packetWrite_header "abc".data (by decide)

/-! ## Adequacy of the protocol-header matcher fuel -/

lemma length_takeWhile_add_dropWhile (p : Char → Bool) (l : List Char) :
    (l.takeWhile p).length + (l.dropWhile p).length = l.length := by
  rw [← List.length_append, List.takeWhile_append_dropWhile]

lemma matchPair_length (cs r : List Char) (h : matchPair cs = some r) :
    r.length + 3 ≤ cs.length := by
  simp only [matchPair] at h
  split at h
  · cases h
  · rename_i hw1
    split at h
    · rename_i r2 hdrop
      split at h
      · cases h
      · rename_i hw2
        have e1 := length_takeWhile_add_dropWhile isAlnumChar cs
        have e2 := length_takeWhile_add_dropWhile isAlnumChar r2
        have l1 : 1 ≤ (cs.takeWhile isAlnumChar).length := by
          rcases hn : cs.takeWhile isAlnumChar with - | -
          · rw [hn] at hw1
            simp at hw1
          · simp
        have l2 : 1 ≤ (r2.takeWhile isAlnumChar).length := by
          rcases hn : r2.takeWhile isAlnumChar with - | -
          · rw [hn] at hw2
            simp at hw2
          · simp
        have hd : (cs.dropWhile isAlnumChar).length = r2.length + 1 := by
          rw [hdrop]
          simp
        cases h
        omega
    · cases h

lemma matchPairsTail_fuel_irrelevant (f g : Nat) (cs : List Char)
    (hf : cs.length ≤ f) (hg : cs.length ≤ g) :
    matchPairsTail f cs = matchPairsTail g cs := by
  induction f generalizing g cs with
  | zero =>
    have hnil : cs = [] := List.eq_nil_of_length_eq_zero (by omega)
    subst hnil
    cases g <;> rfl
  | succ fp ih =>
    cases cs with
    | nil => cases g <;> rfl
    | cons c rest =>
      cases g with
      | zero =>
        simp at hg
      | succ gp =>
        simp only [matchPairsTail]
        by_cases hc : c = ':'
        · rw [if_pos hc, if_pos hc]
          cases hm : matchPair rest with
          | none => rfl
          | some r =>
            have hr := matchPair_length rest r hm
            simp only [List.length_cons] at hf hg
            exact ih gp r (by omega) (by omega)
        · rw [if_neg hc, if_neg hc]

end Gitness
